import Mathlib

/-! Guest command dispatch (`pkg/guest/guest.go`).

A shallow embedding of `Default.runCmd`, `Default.getGuestCmd` and
`Default.Delete`, together with the properties of the dispatch sequence,
of the failure reports and of placeholder expansion.

Go strings are Lean `String`s, a Go `error` is the text of its message
(`nil` is `none`), a Go `map[string]string` is a lookup function, and the
remote executor is a function of the calls made so far, so that the trace
of `CmdAsync` calls is the explicit state threaded through the code.
-/

namespace Guest

/-! ## Data model -/

/-- A Go `map[string]string`, seen through its lookup. -/
abbrev StrMap := String → Option String

/-- One call `ssh.CmdAsync(host, cmd)`. -/
structure SshCall where
  host : String
  cmd : String
  deriving DecidableEq

/-- The executor `ssh.Interface`, restricted to `CmdAsync`: given the calls
already made and the arguments of the present call, `none` is a `nil` error
and `some e` an error whose message is `e`. -/
structure SshInterface where
  CmdAsync : List SshCall → String → String → Option String

/-- The receiver `Default`; only the `ssh` field is read by the embedded code. -/
structure Default where
  ssh : SshInterface

/-- The field `cluster.Spec` as far as it is read: `Command` is the override list. -/
structure ClusterSpec where
  Command : List String

/-- The type `v2.Cluster` as far as it is read. -/
structure Cluster where
  Name : String
  Spec : ClusterSpec

/-- The type `v2.MountImage`: one workload. -/
structure MountImage where
  Name : String
  Env : StrMap
  Entrypoint : List String
  Cmd : List String

/-- What `guest.go` imports from packages that are outside the file: the
development is parametric in all of them.
`CdAndExecCmd dir cmd` stands for `fmt.Sprintf(constants.CdAndExecCmd, dir, cmd)`. -/
structure Imports where
  MergeMap : StrMap → StrMap → StrMap
  MappingFuncFor : StrMap → String → String
  Expand : String → (String → String) → String
  GetMaster0IPAndPort : Cluster → String
  GetAppWorkDir : String → String → String
  CdAndExecCmd : String → String → String

/-- How a call of a Go function returning `error` ends: it returns (with
`nil` or an error), or it panics with a value. -/
inductive Outcome where
  | returned (err : Option String)
  | panicked (value : String)
  deriving DecidableEq

/-! ## The code -/

/-- The call `runCmd` makes for a non-empty command. -/
def dispatchOf (I : Imports) (cluster : Cluster) (name cmd : String) : SshCall :=
  { host := I.GetMaster0IPAndPort cluster
    cmd := I.CdAndExecCmd (I.GetAppWorkDir cluster.Name name) cmd }

/-- `func (d *Default) runCmd(cluster, name, cmd) error`, with the trace of
executor calls passed in and out. -/
def runCmd (I : Imports) (d : Default) (cluster : Cluster) (name cmd : String)
    (tr : List SshCall) : List SshCall × Option String :=
  if cmd = "" then (tr, none)
  else
    match d.ssh.CmdAsync tr (dispatchOf I cluster name cmd).host
        (dispatchOf I cluster name cmd).cmd with
    | some err => (tr ++ [dispatchOf I cluster name cmd], some err)
    | none => (tr ++ [dispatchOf I cluster name cmd], none)

/-- `fmt.Errorf("run entrypoint command %s error: %v", cmd, err)`. -/
def entrypointErrorf (cmd err : String) : String :=
  "run entrypoint command " ++ cmd ++ " error: " ++ err

/-- `fmt.Errorf("run override command %s error: %v", cmd, err)`. -/
def overrideErrorf (cmd err : String) : String :=
  "run override command " ++ cmd ++ " error: " ++ err

/-- `fmt.Errorf("run cmd command %s error: %v", cmd, err)`. -/
def cmdErrorf (cmd err : String) : String :=
  "run cmd command " ++ cmd ++ " error: " ++ err

/-- The loop shape that occurs three times in `getGuestCmd`:
`for _, cmd := range cmds { if err := d.runCmd(cluster, name, Expand(cmd, mapping)); err != nil { return errorf(cmd, err) } }`.
The result `none` means the loop ran to its end. -/
def rangeCmds (I : Imports) (d : Default) (cluster : Cluster) (name : String)
    (mapping : String → String) (errorf : String → String → String) :
    List String → List SshCall → List SshCall × Option String
  | [], tr => (tr, none)
  | cmd :: rest, tr =>
    match runCmd I d cluster name (I.Expand cmd mapping) tr with
    | (tr1, some err) => (tr1, some (errorf cmd err))
    | (tr1, none) => rangeCmds I d cluster name mapping errorf rest tr1

/-- The loop `for idx, i := range mounts` of `getGuestCmd`, from index `idx` on. -/
def rangeMounts (I : Imports) (d : Default) (envs : StrMap) (cluster : Cluster)
    (overrideCmd : List String) :
    Nat → List MountImage → List SshCall → List SshCall × Option String
  | _, [], tr => (tr, none)
  | idx, i :: rest, tr =>
    let mergeENV := I.MergeMap i.Env envs
    let mapping := I.MappingFuncFor mergeENV
    match rangeCmds I d cluster i.Name mapping entrypointErrorf i.Entrypoint tr with
    | (tr1, some e) => (tr1, some e)
    | (tr1, none) =>
      if idx = 0 ∧ overrideCmd.length > 0 then
        match rangeCmds I d cluster i.Name mapping overrideErrorf overrideCmd tr1 with
        | (tr2, some e) => (tr2, some e)
        | (tr2, none) => rangeMounts I d envs cluster overrideCmd (idx + 1) rest tr2
      else
        match rangeCmds I d cluster i.Name mapping cmdErrorf i.Cmd tr1 with
        | (tr2, some e) => (tr2, some e)
        | (tr2, none) => rangeMounts I d envs cluster overrideCmd (idx + 1) rest tr2

/-- `func (d *Default) getGuestCmd(envs, cluster, mounts) error`, with the
trace of executor calls passed in and out. -/
def getGuestCmd (I : Imports) (d : Default) (envs : StrMap) (cluster : Cluster)
    (mounts : List MountImage) (tr : List SshCall) : List SshCall × Option String :=
  rangeMounts I d envs cluster cluster.Spec.Command 0 mounts tr

/-- `func (d Default) Delete(cluster) error`: the body is `panic("implement me")`. -/
def Delete (_d : Default) (_cluster : Cluster) (tr : List SshCall) :
    List SshCall × Outcome :=
  (tr, Outcome.panicked "implement me")

/-! ## Placeholder expansion and merging (packages outside the file) -/

/-- Modelled from the spec: the reading of `NAME` in `$(NAME)` by
`expansion.Expand`, whose source lies outside `pkg/guest/guest.go`.
Section 4.1: `NAME` is any sequence of characters up to the matching `)`.
The result is `none` when no `)` follows. -/
def readName : List Char → Option (List Char)
  | [] => none
  | c :: cs => if c = ')' then some [] else (readName cs).map (fun n => c :: n)

/-- Modelled from the spec: the scan of `expansion.Expand` over the characters
of the command, whose source lies outside `pkg/guest/guest.go`. Section 4.1:
`$(NAME)` is replaced by `mapping NAME`, the doubled `$$` collapses to one
literal `$`, every other character is copied, and the scan is single-pass (what
the mapping returns is not scanned again). The first argument counts the
characters still to be skipped because they were consumed already. -/
def expandChars (mapping : List Char → List Char) : Nat → List Char → List Char
  | _, [] => []
  | skip + 1, _ :: cs => expandChars mapping skip cs
  | 0, c :: cs =>
    if c = '$' then
      match cs with
      | [] => [c]
      | d :: rest =>
        if d = '$' then '$' :: expandChars mapping 1 cs
        else if d = '(' then
          match readName rest with
          | some name => mapping name ++ expandChars mapping (name.length + 2) cs
          | none => '$' :: expandChars mapping 0 cs
        else '$' :: expandChars mapping 0 cs
    else c :: expandChars mapping 0 cs

/-- Modelled from the spec: `expansion.Expand(input, mapping)`, whose source lies
outside `pkg/guest/guest.go` (section 4.1, PlaceholderExpander). -/
def Expand (input : String) (mapping : String → String) : String :=
  String.mk (expandChars (fun n => (mapping (String.mk n)).data) 0 input.data)

/-- Modelled from the spec: `expansion.MappingFuncFor(m)`, whose source lies
outside `pkg/guest/guest.go`. Section 4.1: a name present in the mapping is
replaced by its value, an absent one is left as the literal text `$(NAME)`. -/
def MappingFuncFor (m : StrMap) (name : String) : String :=
  match m name with
  | some v => v
  | none => "$(" ++ name ++ ")"

/-- Which argument of the merge is authoritative on a key collision. -/
inductive Precedence where
  | workloadEnv
  | clusterEnv
  deriving DecidableEq

/-- Modelled from the spec: `maps.MergeMap(workloadEnv, clusterEnv)`, whose
source lies outside `pkg/guest/guest.go`. Section 4.2: the result holds the
union of the keys, and on a collision one source is authoritative; the spec
leaves open which one (section 9), so the choice is an argument. -/
def MergeMap (p : Precedence) (workloadEnv clusterEnv : StrMap) : StrMap :=
  fun k =>
    match p with
    | Precedence.workloadEnv => (workloadEnv k).orElse (fun _ => clusterEnv k)
    | Precedence.clusterEnv => (clusterEnv k).orElse (fun _ => workloadEnv k)

/-! ## The dispatch plan

The list of dispatches a run is going to attempt can be computed ahead of
the run; the loops of `getGuestCmd` are then one pass over that list. -/

/-- The list a command of `getGuestCmd` is taken from. -/
inductive Phase where
  | entrypoint
  | override
  | cmd
  deriving DecidableEq

/-- The word that names the phase in the failure message. -/
def Phase.label : Phase → String
  | Phase.entrypoint => "entrypoint"
  | Phase.override => "override"
  | Phase.cmd => "cmd"

/-- The failure message of the phase. -/
def Phase.errorf : Phase → String → String → String
  | Phase.entrypoint => entrypointErrorf
  | Phase.override => overrideErrorf
  | Phase.cmd => cmdErrorf

/-- One planned dispatch: the phase and raw text of the command, and the call. -/
structure Step where
  phase : Phase
  raw : String
  call : SshCall

/-- The mapping function `getGuestCmd` expands the commands of workload `i` with. -/
def effectiveMapping (I : Imports) (envs : StrMap) (i : MountImage) : String → String :=
  I.MappingFuncFor (I.MergeMap i.Env envs)

/-- The dispatches of a command list, in order: each command expanded, the
empty expansions left out, under the working directory of `name`. -/
def dispatchesOf (I : Imports) (cluster : Cluster) (name : String)
    (mapping : String → String) (cmds : List String) : List SshCall :=
  ((cmds.map (fun c => I.Expand c mapping)).filter (fun e => decide (e ≠ ""))).map
    (dispatchOf I cluster name)

/-- The planned steps of a command list. -/
def stepsOf (I : Imports) (cluster : Cluster) (name : String)
    (mapping : String → String) (phase : Phase) : List String → List Step
  | [] => []
  | c :: rest =>
    if I.Expand c mapping = "" then stepsOf I cluster name mapping phase rest
    else
      { phase := phase, raw := c, call := dispatchOf I cluster name (I.Expand c mapping) } ::
        stepsOf I cluster name mapping phase rest

/-- The planned steps of the workload at index `idx`. -/
def workloadSteps (I : Imports) (envs : StrMap) (cluster : Cluster)
    (overrideCmd : List String) (idx : Nat) (i : MountImage) : List Step :=
  stepsOf I cluster i.Name (effectiveMapping I envs i) Phase.entrypoint i.Entrypoint ++
    (if idx = 0 ∧ overrideCmd.length > 0 then
      stepsOf I cluster i.Name (effectiveMapping I envs i) Phase.override overrideCmd
    else stepsOf I cluster i.Name (effectiveMapping I envs i) Phase.cmd i.Cmd)

/-- The planned steps of the workloads from index `idx` on. -/
def planFrom (I : Imports) (envs : StrMap) (cluster : Cluster) (overrideCmd : List String) :
    Nat → List MountImage → List Step
  | _, [] => []
  | idx, i :: rest =>
    workloadSteps I envs cluster overrideCmd idx i ++
      planFrom I envs cluster overrideCmd (idx + 1) rest

/-- One pass over a plan: dispatch each step, stop at the first failure. -/
def runSteps (d : Default) : List Step → List SshCall → List SshCall × Option String
  | [], tr => (tr, none)
  | s :: rest, tr =>
    match d.ssh.CmdAsync tr s.call.host s.call.cmd with
    | some err => (tr ++ [s.call], some (s.phase.errorf s.raw err))
    | none => runSteps d rest (tr ++ [s.call])

/-- The executor that succeeds on every call. -/
def okSsh : SshInterface := { CmdAsync := fun _ _ _ => none }

/-- Text `sub` occurs in text `s`. -/
def contains (s sub : String) : Prop := sub.data <:+: s.data

instance (s sub : String) : Decidable (contains s sub) := by
  unfold contains; infer_instance

/-- Every call of the list succeeds when the calls are made one after the
other on top of the trace `tr`. -/
def allOk (d : Default) : List SshCall → List SshCall → Prop
  | _, [] => True
  | tr, c :: rest => d.ssh.CmdAsync tr c.host c.cmd = none ∧ allOk d (tr ++ [c]) rest

/-- The dispatches of one workload when no override applies to it: its
entrypoint commands, then its own cmd commands. -/
def ownDispatches (I : Imports) (envs : StrMap) (cluster : Cluster) (i : MountImage) :
    List SshCall :=
  dispatchesOf I cluster i.Name (effectiveMapping I envs i) i.Entrypoint ++
    dispatchesOf I cluster i.Name (effectiveMapping I envs i) i.Cmd

/-- The command `raw` is taken from the list that phase `phase` reads for the
workload `i` at index `k`: the entrypoint list always, the override list for
index 0 when it is non-empty, and the cmd list of the workload otherwise. -/
def takenFrom (cluster : Cluster) (k : Nat) (i : MountImage) : Phase → String → Prop
  | Phase.entrypoint, raw => raw ∈ i.Entrypoint
  | Phase.override, raw =>
    (k = 0 ∧ cluster.Spec.Command.length > 0) ∧ raw ∈ cluster.Spec.Command
  | Phase.cmd, raw => ¬ (k = 0 ∧ cluster.Spec.Command.length > 0) ∧ raw ∈ i.Cmd

/-! ## Sample values for the worked examples -/

/-- Sample imports: the expansion and merge as modelled above, a fixed
address, and a change-directory-then-execute wrapper. -/
def sampleImports (p : Precedence) : Imports :=
  { MergeMap := MergeMap p
    MappingFuncFor := MappingFuncFor
    Expand := Expand
    GetMaster0IPAndPort := fun _ => "10.0.0.1:22"
    GetAppWorkDir := fun clusterName name => clusterName ++ "/" ++ name
    CdAndExecCmd := fun dir cmd => "cd " ++ dir ++ " && " ++ cmd }

/-- The empty mapping. -/
def emptyEnv : StrMap := fun _ => none

/-- A cluster without override commands. -/
def plainCluster : Cluster := { Name := "c", Spec := { Command := [] } }

/-- A cluster with the override list `["o1"]`. -/
def overrideCluster : Cluster := { Name := "c", Spec := { Command := ["o1"] } }

/-- A cluster whose override list is `["o1", "$(NOTHING)"]`. -/
def gapCluster : Cluster := { Name := "c", Spec := { Command := ["o1", "$(NOTHING)"] } }

/-- Workload `A` with entrypoint `[e1, e2]` and cmd `[c1]`. -/
def workloadA : MountImage :=
  { Name := "A", Env := emptyEnv, Entrypoint := ["e1", "e2"], Cmd := ["c1"] }

/-- Workload `B` with entrypoint `[e1, e2]` and cmd `[c1]`. -/
def workloadB : MountImage :=
  { Name := "B", Env := emptyEnv, Entrypoint := ["e1", "e2"], Cmd := ["c1"] }

/-- An executor that fails on every call with the message `boom`. -/
def failingSsh : SshInterface := { CmdAsync := fun _ _ _ => some "boom" }

/-- A workload named `web` that declares `X` and has the single entrypoint
command `echo $(X)`. -/
def workloadWeb : MountImage :=
  { Name := "web"
    Env := fun k => if k = "X" then some "1" else none
    Entrypoint := ["echo $(X)"]
    Cmd := [] }

/-- A workload whose second entrypoint command expands to the empty text. -/
def workloadGap : MountImage :=
  { Name := "gap"
    Env := fun k => if k = "NOTHING" then some "" else none
    Entrypoint := ["e1", "$(NOTHING)", "e2"]
    Cmd := [] }

/-- A workload named `app` with the single entrypoint command `ls`. -/
def workloadApp : MountImage :=
  { Name := "app", Env := emptyEnv, Entrypoint := ["ls"], Cmd := [] }

/-! ## Lemmas on the plan -/

theorem runSteps_append (d : Default) (a b : List Step) (tr : List SshCall) :
    runSteps d (a ++ b) tr =
      match runSteps d a tr with
      | (tr1, some e) => (tr1, some e)
      | (tr1, none) => runSteps d b tr1 := by
  induction a generalizing tr with
  | nil => simp [runSteps]
  | cons s rest ih =>
    simp only [List.cons_append, runSteps]
    cases h : d.ssh.CmdAsync tr s.call.host s.call.cmd with
    | some err => simp
    | none => simpa using ih (tr ++ [s.call])

theorem rangeCmds_eq_runSteps (I : Imports) (d : Default) (cluster : Cluster) (name : String)
    (mapping : String → String) (phase : Phase) (cmds : List String) (tr : List SshCall) :
    rangeCmds I d cluster name mapping phase.errorf cmds tr =
      runSteps d (stepsOf I cluster name mapping phase cmds) tr := by
  induction cmds generalizing tr with
  | nil => simp [rangeCmds, stepsOf, runSteps]
  | cons c rest ih =>
    by_cases hc : I.Expand c mapping = ""
    · simp [rangeCmds, stepsOf, runCmd, hc, ih]
    · simp only [rangeCmds, stepsOf, runCmd, hc, if_false, runSteps]
      cases h : d.ssh.CmdAsync tr (dispatchOf I cluster name (I.Expand c mapping)).host
          (dispatchOf I cluster name (I.Expand c mapping)).cmd with
      | some err => simp
      | none => simpa using ih _

theorem rangeMounts_eq_runSteps (I : Imports) (d : Default) (envs : StrMap) (cluster : Cluster)
    (overrideCmd : List String) (idx : Nat) (mounts : List MountImage) (tr : List SshCall) :
    rangeMounts I d envs cluster overrideCmd idx mounts tr =
      runSteps d (planFrom I envs cluster overrideCmd idx mounts) tr := by
  induction mounts generalizing idx tr with
  | nil => simp [rangeMounts, planFrom, runSteps]
  | cons i rest ih =>
    have hE := rangeCmds_eq_runSteps I d cluster i.Name (effectiveMapping I envs i)
      Phase.entrypoint i.Entrypoint
    have hO := rangeCmds_eq_runSteps I d cluster i.Name (effectiveMapping I envs i)
      Phase.override overrideCmd
    have hC := rangeCmds_eq_runSteps I d cluster i.Name (effectiveMapping I envs i)
      Phase.cmd i.Cmd
    simp only [Phase.errorf, effectiveMapping] at hE hO hC
    simp only [rangeMounts, planFrom, workloadSteps, runSteps_append, effectiveMapping, hE]
    rcases hr : runSteps d (stepsOf I cluster i.Name (I.MappingFuncFor (I.MergeMap i.Env envs))
      Phase.entrypoint i.Entrypoint) tr with ⟨tr1, _ | e⟩
    · by_cases hidx : idx = 0 ∧ overrideCmd.length > 0
      · simp only [hidx, and_self, if_true, hO]
        rcases runSteps d (stepsOf I cluster i.Name (I.MappingFuncFor (I.MergeMap i.Env envs))
          Phase.override overrideCmd) tr1 with ⟨tr2, _ | e⟩
        · simpa using ih 1 tr2
        · simp
      · simp only [hidx, if_false, hC]
        rcases runSteps d (stepsOf I cluster i.Name (I.MappingFuncFor (I.MergeMap i.Env envs))
          Phase.cmd i.Cmd) tr1 with ⟨tr2, _ | e⟩
        · simpa using ih (idx + 1) tr2
        · simp
    · simp

theorem getGuestCmd_eq_runSteps (I : Imports) (d : Default) (envs : StrMap) (cluster : Cluster)
    (mounts : List MountImage) (tr : List SshCall) :
    getGuestCmd I d envs cluster mounts tr =
      runSteps d (planFrom I envs cluster cluster.Spec.Command 0 mounts) tr :=
  rangeMounts_eq_runSteps I d envs cluster cluster.Spec.Command 0 mounts tr

theorem allOk_iff (d : Default) (calls tr : List SshCall) :
    allOk d tr calls ↔
      ∀ pre c post, calls = pre ++ c :: post → d.ssh.CmdAsync (tr ++ pre) c.host c.cmd = none := by
  induction calls generalizing tr with
  | nil =>
    simp only [allOk, true_iff]
    intro pre c post h
    simp at h
  | cons a rest ih =>
    simp only [allOk, ih]
    constructor
    · rintro ⟨h0, hrest⟩ pre c post h
      cases pre with
      | nil =>
        simp only [List.nil_append, List.cons.injEq] at h
        obtain ⟨rfl, -⟩ := h
        simpa using h0
      | cons b pre1 =>
        simp only [List.cons_append, List.cons.injEq] at h
        obtain ⟨rfl, h⟩ := h
        simpa using hrest pre1 c post h
    · intro h
      refine ⟨by simpa using h [] a rest rfl, ?_⟩
      intro pre c post hsplit
      simpa using h (a :: pre) c post (by simp [hsplit])

/-- A pass over a plan either makes every call of the plan, all of them
succeeding, or stops at the first call that fails. -/
theorem runSteps_cases (d : Default) (steps : List Step) (tr : List SshCall) :
    (runSteps d steps tr = (tr ++ steps.map Step.call, none) ∧
        allOk d tr (steps.map Step.call)) ∨
      ∃ pre s post err, steps = pre ++ s :: post ∧
        allOk d tr (pre.map Step.call) ∧
        d.ssh.CmdAsync (tr ++ pre.map Step.call) s.call.host s.call.cmd = some err ∧
        runSteps d steps tr =
          (tr ++ pre.map Step.call ++ [s.call], some (s.phase.errorf s.raw err)) := by
  induction steps generalizing tr with
  | nil => left; simp [runSteps, allOk]
  | cons s rest ih =>
    cases h : d.ssh.CmdAsync tr s.call.host s.call.cmd with
    | some err =>
      right
      exact ⟨[], s, rest, err, rfl, by simp [allOk], by simpa using h, by simp [runSteps, h]⟩
    | none =>
      rcases ih (tr ++ [s.call]) with ⟨hrun, hok⟩ | ⟨pre, t, post, err, hsplit, hok, hfail, hrun⟩
      · left
        exact ⟨by simp [runSteps, h, hrun], by simp [allOk, h, hok]⟩
      · right
        refine ⟨s :: pre, t, post, err, by simp [hsplit], by simp [allOk, h, hok], ?_, ?_⟩
        · simpa using hfail
        · simp [runSteps, h, hrun]

theorem runSteps_ok (d : Default) (hok : ∀ t h c, d.ssh.CmdAsync t h c = none)
    (steps : List Step) (tr : List SshCall) :
    runSteps d steps tr = (tr ++ steps.map Step.call, none) := by
  rcases runSteps_cases d steps tr with ⟨hrun, -⟩ | ⟨pre, s, post, err, -, -, hfail, -⟩
  · exact hrun
  · rw [hok] at hfail
    cases hfail

theorem stepsOf_calls (I : Imports) (cluster : Cluster) (name : String)
    (mapping : String → String) (phase : Phase) (cmds : List String) :
    (stepsOf I cluster name mapping phase cmds).map Step.call =
      dispatchesOf I cluster name mapping cmds := by
  induction cmds with
  | nil => simp [stepsOf, dispatchesOf]
  | cons c rest ih =>
    by_cases hc : I.Expand c mapping = ""
    · simpa [stepsOf, dispatchesOf, hc] using ih
    · simpa [stepsOf, dispatchesOf, hc] using ih

theorem mem_stepsOf (I : Imports) (cluster : Cluster) (name : String)
    (mapping : String → String) (phase : Phase) (cmds : List String) (s : Step)
    (h : s ∈ stepsOf I cluster name mapping phase cmds) :
    s.phase = phase ∧ s.raw ∈ cmds ∧ I.Expand s.raw mapping ≠ "" ∧
      s.call = dispatchOf I cluster name (I.Expand s.raw mapping) := by
  induction cmds with
  | nil => simp [stepsOf] at h
  | cons c rest ih =>
    by_cases hc : I.Expand c mapping = ""
    · simp only [stepsOf, hc, if_true] at h
      obtain ⟨h1, h2, h3, h4⟩ := ih h
      exact ⟨h1, List.mem_cons_of_mem _ h2, h3, h4⟩
    · simp only [stepsOf, hc, if_false, List.mem_cons] at h
      rcases h with rfl | h
      · exact ⟨rfl, List.mem_cons_self _ _, hc, rfl⟩
      · obtain ⟨h1, h2, h3, h4⟩ := ih h
        exact ⟨h1, List.mem_cons_of_mem _ h2, h3, h4⟩

theorem mem_planFrom (I : Imports) (envs : StrMap) (cluster : Cluster)
    (overrideCmd : List String) (idx : Nat) (mounts : List MountImage) (s : Step)
    (h : s ∈ planFrom I envs cluster overrideCmd idx mounts) :
    ∃ k i, mounts[k]? = some i ∧ s ∈ workloadSteps I envs cluster overrideCmd (idx + k) i := by
  induction mounts generalizing idx with
  | nil => simp [planFrom] at h
  | cons i rest ih =>
    simp only [planFrom, List.mem_append] at h
    rcases h with h | h
    · exact ⟨0, i, by simp, by simpa using h⟩
    · obtain ⟨k, j, hk, hj⟩ := ih (idx + 1) h
      exact ⟨k + 1, j, by simpa using hk, by simpa [Nat.add_assoc, Nat.add_comm 1 k] using hj⟩

theorem planFrom_succ_calls (I : Imports) (envs : StrMap) (cluster : Cluster)
    (overrideCmd : List String) (idx : Nat) (mounts : List MountImage) :
    (planFrom I envs cluster overrideCmd (idx + 1) mounts).map Step.call =
      mounts.flatMap (ownDispatches I envs cluster) := by
  induction mounts generalizing idx with
  | nil => simp [planFrom]
  | cons i rest ih =>
    simp [planFrom, workloadSteps, ownDispatches, stepsOf_calls, ih]

theorem planFrom_nil_calls (I : Imports) (envs : StrMap) (cluster : Cluster)
    (idx : Nat) (mounts : List MountImage) :
    (planFrom I envs cluster [] idx mounts).map Step.call =
      mounts.flatMap (ownDispatches I envs cluster) := by
  induction mounts generalizing idx with
  | nil => simp [planFrom]
  | cons i rest ih =>
    simp [planFrom, workloadSteps, ownDispatches, stepsOf_calls, ih]

theorem errorf_eq (phase : Phase) (raw err : String) :
    phase.errorf raw err = "run " ++ phase.label ++ " command " ++ raw ++ " error: " ++ err := by
  cases phase
  · have h : "run entrypoint command " = "run " ++ "entrypoint" ++ " command " := by decide
    simp only [Phase.errorf, Phase.label, entrypointErrorf, h]
  · have h : "run override command " = "run " ++ "override" ++ " command " := by decide
    simp only [Phase.errorf, Phase.label, overrideErrorf, h]
  · have h : "run cmd command " = "run " ++ "cmd" ++ " command " := by decide
    simp only [Phase.errorf, Phase.label, cmdErrorf, h]

theorem mem_workloadSteps (I : Imports) (envs : StrMap) (cluster : Cluster)
    (k : Nat) (i : MountImage) (s : Step)
    (h : s ∈ workloadSteps I envs cluster cluster.Spec.Command k i) :
    takenFrom cluster k i s.phase s.raw ∧
      s.call = dispatchOf I cluster i.Name (I.Expand s.raw (effectiveMapping I envs i)) := by
  simp only [workloadSteps, List.mem_append] at h
  rcases h with h | h
  · obtain ⟨h1, h2, -, h4⟩ := mem_stepsOf _ _ _ _ _ _ _ h
    rw [h1]
    exact ⟨h2, h4⟩
  · by_cases hk : k = 0 ∧ cluster.Spec.Command.length > 0
    · rw [if_pos hk] at h
      obtain ⟨h1, h2, -, h4⟩ := mem_stepsOf _ _ _ _ _ _ _ h
      rw [h1]
      exact ⟨⟨hk, h2⟩, h4⟩
    · rw [if_neg hk] at h
      obtain ⟨h1, h2, -, h4⟩ := mem_stepsOf _ _ _ _ _ _ _ h
      rw [h1]
      exact ⟨⟨hk, h2⟩, h4⟩

/-- What a failed run looks like: the failing step belongs to a workload of
the list, its dispatch is the last call of the trace, and the message is the
one of its phase. -/
theorem getGuestCmd_failure (I : Imports) (d : Default) (envs : StrMap) (cluster : Cluster)
    (mounts : List MountImage) (tr : List SshCall) (msg : String)
    (h : (getGuestCmd I d envs cluster mounts tr).2 = some msg) :
    ∃ (k : Nat) (i : MountImage) (phase : Phase) (raw err : String) (pre : List SshCall),
      mounts[k]? = some i ∧ takenFrom cluster k i phase raw ∧
      (getGuestCmd I d envs cluster mounts tr).1 =
        tr ++ pre ++ [dispatchOf I cluster i.Name (I.Expand raw (effectiveMapping I envs i))] ∧
      d.ssh.CmdAsync (tr ++ pre)
        (dispatchOf I cluster i.Name (I.Expand raw (effectiveMapping I envs i))).host
        (dispatchOf I cluster i.Name (I.Expand raw (effectiveMapping I envs i))).cmd = some err ∧
      msg = phase.errorf raw err := by
  rw [getGuestCmd_eq_runSteps] at h ⊢
  rcases runSteps_cases d (planFrom I envs cluster cluster.Spec.Command 0 mounts) tr with
    ⟨hrun, -⟩ | ⟨pre, s, post, err, hsplit, -, hfail, hrun⟩
  · rw [hrun] at h
    cases h
  · have hmem : s ∈ planFrom I envs cluster cluster.Spec.Command 0 mounts := by
      rw [hsplit]; simp
    obtain ⟨k, i, hk, hs⟩ := mem_planFrom _ _ _ _ _ _ _ hmem
    rw [Nat.zero_add] at hs
    obtain ⟨htaken, hcall⟩ := mem_workloadSteps _ _ _ _ _ _ hs
    rw [hrun] at h ⊢
    simp only [Option.some.injEq] at h
    rw [hcall] at hfail
    exact ⟨k, i, s.phase, s.raw, err, pre.map Step.call, hk, htaken, by rw [hcall], hfail, h.symm⟩

theorem rangeCmds_skip_empty (I : Imports) (d : Default) (cluster : Cluster) (name : String)
    (mapping : String → String) (errorf : String → String → String) (cmd : String)
    (hempty : I.Expand cmd mapping = "") (before after : List String) (tr : List SshCall) :
    rangeCmds I d cluster name mapping errorf (before ++ cmd :: after) tr =
      rangeCmds I d cluster name mapping errorf (before ++ after) tr := by
  induction before generalizing tr with
  | nil => simp [rangeCmds, runCmd, hempty]
  | cons b rest ih =>
    simp only [List.cons_append, rangeCmds]
    rcases runCmd I d cluster name (I.Expand b mapping) tr with ⟨tr1, _ | e⟩
    · exact ih tr1
    · rfl

theorem stepsOf_skip_empty (I : Imports) (cluster : Cluster) (name : String)
    (mapping : String → String) (phase : Phase) (cmd : String)
    (hempty : I.Expand cmd mapping = "") (before after : List String) :
    stepsOf I cluster name mapping phase (before ++ cmd :: after) =
      stepsOf I cluster name mapping phase (before ++ after) := by
  induction before with
  | nil => simp [stepsOf, hempty]
  | cons b rest ih => simp [stepsOf, ih]

theorem planFrom_append (I : Imports) (envs : StrMap) (cluster : Cluster)
    (overrideCmd : List String) (idx : Nat) (ms1 ms2 : List MountImage) :
    planFrom I envs cluster overrideCmd idx (ms1 ++ ms2) =
      planFrom I envs cluster overrideCmd idx ms1 ++
        planFrom I envs cluster overrideCmd (idx + ms1.length) ms2 := by
  induction ms1 generalizing idx with
  | nil => simp [planFrom]
  | cons i rest ih =>
    simp [planFrom, ih, Nat.add_assoc, Nat.add_comm 1 rest.length]

/-- The run depends on a workload only through its planned steps. -/
theorem getGuestCmd_congr (I : Imports) (d : Default) (envs : StrMap) (cluster : Cluster)
    (ms1 ms2 : List MountImage) (i j : MountImage) (tr : List SshCall)
    (h : ∀ k, workloadSteps I envs cluster cluster.Spec.Command k i =
      workloadSteps I envs cluster cluster.Spec.Command k j) :
    getGuestCmd I d envs cluster (ms1 ++ i :: ms2) tr =
      getGuestCmd I d envs cluster (ms1 ++ j :: ms2) tr := by
  simp only [getGuestCmd_eq_runSteps, planFrom_append, planFrom, h]

/-- From index 1 on the override list is not read. -/
theorem rangeMounts_succ_override (I : Imports) (d : Default) (envs : StrMap)
    (cluster : Cluster) (ov1 ov2 : List String) (idx : Nat) (mounts : List MountImage)
    (tr : List SshCall) :
    rangeMounts I d envs cluster ov1 (idx + 1) mounts tr =
      rangeMounts I d envs cluster ov2 (idx + 1) mounts tr := by
  induction mounts generalizing idx tr with
  | nil => simp [rangeMounts]
  | cons i rest ih =>
    simp only [rangeMounts, Nat.add_one_ne_zero, false_and, if_false]
    rcases rangeCmds I d cluster i.Name (I.MappingFuncFor (I.MergeMap i.Env envs))
      entrypointErrorf i.Entrypoint tr with ⟨tr1, _ | e⟩
    · simp only
      rcases rangeCmds I d cluster i.Name (I.MappingFuncFor (I.MergeMap i.Env envs))
        cmdErrorf i.Cmd tr1 with ⟨tr2, _ | e⟩
      · exact ih (idx + 1) tr2
      · rfl
    · rfl

/-- The first workload under a non-empty override list, one loop after the other. -/
theorem getGuestCmd_override_unfold (I : Imports) (d : Default) (envs : StrMap)
    (cluster : Cluster) (ov : List String) (i : MountImage) (rest : List MountImage)
    (tr : List SshCall) (hov : ov ≠ []) :
    rangeMounts I d envs cluster ov 0 (i :: rest) tr =
      match rangeCmds I d cluster i.Name (effectiveMapping I envs i) entrypointErrorf
          i.Entrypoint tr with
      | (t1, some e) => (t1, some e)
      | (t1, none) =>
        match rangeCmds I d cluster i.Name (effectiveMapping I envs i) overrideErrorf ov t1 with
        | (t2, some e) => (t2, some e)
        | (t2, none) => rangeMounts I d envs cluster ov 1 rest t2 := by
  have hlen : ov.length > 0 := List.length_pos.mpr hov
  simp only [rangeMounts, effectiveMapping, hlen, and_self, if_true]

/-! ## Lemmas on expansion and merging -/

theorem readName_closed (n tail : List Char) (hn : ')' ∉ n) :
    readName (n ++ ')' :: tail) = some n := by
  induction n with
  | nil => simp [readName]
  | cons c rest ih =>
    simp only [List.mem_cons, not_or] at hn
    have hc : ¬ c = ')' := fun h => hn.1 h.symm
    simp [readName, hc, ih hn.2]

theorem expandChars_skip_all (mapping : List Char → List Char) (k : Nat) (l : List Char)
    (h : l.length ≤ k) : expandChars mapping k l = [] := by
  induction l generalizing k with
  | nil => simp [expandChars]
  | cons c rest ih =>
    cases k with
    | zero => simp at h
    | succ k =>
      simp only [expandChars]
      exact ih k (by simpa using h)

theorem expandChars_reference (mapping : List Char → List Char) (n : List Char)
    (hn : ')' ∉ n) :
    expandChars mapping 0 ('$' :: '(' :: (n ++ [')'])) = mapping n := by
  have h1 : ¬ ('(' = '$') := by decide
  have h2 : expandChars mapping (n.length + 1) (n ++ [')']) = [] :=
    expandChars_skip_all mapping _ _ (by simp)
  simp [expandChars, h1, readName_closed n [] hn, h2]

theorem reference_data (n : String) :
    ("$(" ++ n ++ ")").data = '$' :: '(' :: (n.data ++ [')']) := by
  have h1 : "$(".data = ['$', '('] := rfl
  have h2 : ")".data = [')'] := rfl
  simp [String.data_append, h1, h2]

theorem Expand_reference (mapping : String → String) (n : String) (hn : ')' ∉ n.data) :
    Expand ("$(" ++ n ++ ")") mapping = mapping n := by
  simp only [Expand, reference_data]
  rw [expandChars_reference _ _ hn]

theorem MergeMap_keys (p : Precedence) (a b : StrMap) (k : String) :
    (MergeMap p a b k).isSome ↔ (a k).isSome ∨ (b k).isSome := by
  cases p <;> cases ha : a k <;> cases hb : b k <;> simp [MergeMap, ha, hb]

theorem MergeMap_collision (p : Precedence) (a b : StrMap) (k va vb : String)
    (ha : a k = some va) (hb : b k = some vb) :
    MergeMap p a b k = some (match p with
      | Precedence.workloadEnv => va
      | Precedence.clusterEnv => vb) := by
  cases p <;> simp [MergeMap, ha, hb]

/-! ## The claims -/

/-- C1: with an empty override list and an executor that succeeds on every
call, `getGuestCmd` returns success, and the calls it adds to the trace are,
for each workload in list order, the dispatches of its entrypoint commands in
declaration order followed by those of its cmd commands in declaration order,
each expanded with the effective mapping of the workload and sent under the
name of the workload, only the empty expansions being left out. -/
theorem C1_dispatch_order (I : Imports) (d : Default) (envs : StrMap) (cluster : Cluster)
    (mounts : List MountImage) (tr : List SshCall)
    (hok : ∀ t h c, d.ssh.CmdAsync t h c = none) (hov : cluster.Spec.Command = []) :
    getGuestCmd I d envs cluster mounts tr =
      (tr ++ mounts.flatMap (fun i =>
        dispatchesOf I cluster i.Name (effectiveMapping I envs i) i.Entrypoint ++
          dispatchesOf I cluster i.Name (effectiveMapping I envs i) i.Cmd), none) := by
  rw [getGuestCmd_eq_runSteps, runSteps_ok d hok, hov, planFrom_nil_calls]
  rfl

/-- C1, worked example: for workloads `[A, B]`, each with entrypoint
`[e1, e2]` and cmd `[c1]`, the order is `A.e1, A.e2, A.c1, B.e1, B.e2, B.c1`. -/
theorem C1_dispatch_order_witness :
    plainCluster.Spec.Command = [] ∧
      getGuestCmd (sampleImports Precedence.clusterEnv) { ssh := okSsh } emptyEnv plainCluster
          [workloadA, workloadB] [] =
        ([{ host := "10.0.0.1:22", cmd := "cd c/A && e1" },
          { host := "10.0.0.1:22", cmd := "cd c/A && e2" },
          { host := "10.0.0.1:22", cmd := "cd c/A && c1" },
          { host := "10.0.0.1:22", cmd := "cd c/B && e1" },
          { host := "10.0.0.1:22", cmd := "cd c/B && e2" },
          { host := "10.0.0.1:22", cmd := "cd c/B && c1" }], none) :=
  ⟨rfl, (C1_dispatch_order (sampleImports Precedence.clusterEnv) { ssh := okSsh } emptyEnv
    plainCluster [workloadA, workloadB] [] (fun _ _ _ => rfl) rfl).trans (by decide)⟩

/-- C2: with a non-empty override list, at least one workload and an executor
that succeeds on every call, `getGuestCmd` returns success and adds to the
trace: the entrypoint dispatches of workload 0, then the dispatches of the
override commands (expanded with the effective mapping of workload 0, under
its name), then for every later workload its entrypoint dispatches followed
by its own cmd dispatches, as without override. The cmd list of workload 0 has
no influence on the run. -/
theorem C2_override_scope (I : Imports) (d : Default) (envs : StrMap) (cluster : Cluster)
    (w0 : MountImage) (rest : List MountImage) (tr : List SshCall)
    (hok : ∀ t h c, d.ssh.CmdAsync t h c = none) (hov : cluster.Spec.Command ≠ []) :
    getGuestCmd I d envs cluster (w0 :: rest) tr =
        (tr ++ (dispatchesOf I cluster w0.Name (effectiveMapping I envs w0) w0.Entrypoint ++
          dispatchesOf I cluster w0.Name (effectiveMapping I envs w0) cluster.Spec.Command ++
          rest.flatMap (fun i =>
            dispatchesOf I cluster i.Name (effectiveMapping I envs i) i.Entrypoint ++
              dispatchesOf I cluster i.Name (effectiveMapping I envs i) i.Cmd)), none) ∧
      ∀ cmds : List String,
        getGuestCmd I d envs cluster ({ w0 with Cmd := cmds } :: rest) tr =
          getGuestCmd I d envs cluster (w0 :: rest) tr := by
  have hlen : cluster.Spec.Command.length > 0 := List.length_pos.mpr hov
  have key : ∀ w : MountImage,
      getGuestCmd I d envs cluster (w :: rest) tr =
        (tr ++ (dispatchesOf I cluster w.Name (effectiveMapping I envs w) w.Entrypoint ++
          dispatchesOf I cluster w.Name (effectiveMapping I envs w) cluster.Spec.Command ++
          rest.flatMap (ownDispatches I envs cluster)), none) := by
    intro w
    rw [getGuestCmd_eq_runSteps, runSteps_ok d hok]
    simp [planFrom, workloadSteps, hlen, stepsOf_calls, planFrom_succ_calls]
  refine ⟨key w0, fun cmds => ?_⟩
  rw [key, key]
  rfl

/-- C2, worked example: workloads `[A, B]` and the override list `[o1]`. -/
theorem C2_override_scope_witness :
    overrideCluster.Spec.Command ≠ [] ∧
      getGuestCmd (sampleImports Precedence.clusterEnv) { ssh := okSsh } emptyEnv
          overrideCluster [workloadA, workloadB] [] =
        ([{ host := "10.0.0.1:22", cmd := "cd c/A && e1" },
          { host := "10.0.0.1:22", cmd := "cd c/A && e2" },
          { host := "10.0.0.1:22", cmd := "cd c/A && o1" },
          { host := "10.0.0.1:22", cmd := "cd c/B && e1" },
          { host := "10.0.0.1:22", cmd := "cd c/B && e2" },
          { host := "10.0.0.1:22", cmd := "cd c/B && c1" }], none) :=
  ⟨by decide, ((C2_override_scope (sampleImports Precedence.clusterEnv) { ssh := okSsh }
    emptyEnv overrideCluster workloadA [workloadB] [] (fun _ _ _ => rfl)
    (by decide)).1).trans (by decide)⟩

/-- C3: for every executor, the calls `getGuestCmd` adds to the trace are an
initial segment of the calls the same inputs produce with the always-succeeding
executor. A call that fails is the last call made and makes `getGuestCmd`
return a failure; a returned failure comes with a failing last call; and when
no call fails, `getGuestCmd` returns success and has made every call of the
always-succeeding run. -/
theorem C3_fail_fast (I : Imports) (d : Default) (envs : StrMap) (cluster : Cluster)
    (mounts : List MountImage) (tr : List SshCall) :
    ∃ calls rest : List SshCall,
      (getGuestCmd I d envs cluster mounts tr).1 = tr ++ calls ∧
      getGuestCmd I { ssh := okSsh } envs cluster mounts tr = (tr ++ (calls ++ rest), none) ∧
      (∀ pre c post, calls = pre ++ c :: post →
        (d.ssh.CmdAsync (tr ++ pre) c.host c.cmd).isSome →
          post = [] ∧ (getGuestCmd I d envs cluster mounts tr).2.isSome) ∧
      ((getGuestCmd I d envs cluster mounts tr).2.isSome →
        ∃ pre c, calls = pre ++ [c] ∧ (d.ssh.CmdAsync (tr ++ pre) c.host c.cmd).isSome) ∧
      ((∀ pre c post, calls = pre ++ c :: post →
          d.ssh.CmdAsync (tr ++ pre) c.host c.cmd = none) →
        (getGuestCmd I d envs cluster mounts tr).2 = none ∧ rest = []) := by
  have hOk := runSteps_ok { ssh := okSsh } (fun _ _ _ => rfl)
    (planFrom I envs cluster cluster.Spec.Command 0 mounts) tr
  rw [getGuestCmd_eq_runSteps, getGuestCmd_eq_runSteps, hOk]
  rcases runSteps_cases d (planFrom I envs cluster cluster.Spec.Command 0 mounts) tr with
    ⟨hrun, hok⟩ | ⟨pre, s, post, err, hsplit, hok, hfail, hrun⟩
  · refine ⟨_, [], by rw [hrun], by simp, ?_, ?_, ?_⟩
    · intro p c q hpq hsome
      rw [(allOk_iff d _ tr).1 hok p c q hpq] at hsome
      cases hsome
    · rw [hrun]
      intro h
      cases h
    · intro _
      rw [hrun]
      exact ⟨rfl, rfl⟩
  · refine ⟨pre.map Step.call ++ [s.call], post.map Step.call, ?_, ?_, ?_, ?_, ?_⟩
    · rw [hrun, List.append_assoc]
    · rw [hsplit]
      simp
    · intro p c q hpq hsome
      rcases List.eq_nil_or_concat q with rfl | ⟨q1, x, rfl⟩
      · exact ⟨rfl, by rw [hrun]; rfl⟩
      · exfalso
        rw [List.concat_eq_append, ← List.cons_append, ← List.append_assoc] at hpq
        have hpre := (List.append_inj' hpq rfl).1
        rw [(allOk_iff d _ tr).1 hok p c q1 hpre] at hsome
        cases hsome
    · intro _
      exact ⟨pre.map Step.call, s.call, rfl, by rw [hfail]; rfl⟩
    · intro hall
      have h := hall (pre.map Step.call) s.call [] rfl
      rw [hfail] at h
      cases h

/-- C4, as amended: for every mapping `m` and every name `n` that is present
in `m` and holds no `)`, expanding `$(n)` with the mapping function built from
`m` yields the value of `n` in `m`. -/
theorem C4_defined_reference (m : StrMap) (n v : String) (hv : m n = some v)
    (hn : ')' ∉ n.data) :
    Expand ("$(" ++ n ++ ")") (MappingFuncFor m) = v := by
  rw [Expand_reference _ _ hn]
  simp [MappingFuncFor, hv]

/-- C4, worked example: `$(PORT)` with `PORT` bound to `8080`. -/
theorem C4_defined_reference_witness :
    (fun k => if k = "PORT" then some "8080" else none : StrMap) "PORT" = some "8080" ∧
      ')' ∉ "PORT".data ∧
      Expand ("$(" ++ "PORT" ++ ")")
        (MappingFuncFor (fun k => if k = "PORT" then some "8080" else none)) = "8080" :=
  ⟨by decide, by decide,
    C4_defined_reference (fun k => if k = "PORT" then some "8080" else none) "PORT" "8080"
      (by decide) (by decide)⟩

/-- C4 as stated fails for a name that holds `)`: with `a)b` bound to `v` and
`a` unbound, the text `$(a)b)` reads the name `a` and stays as it is. -/
theorem C4_counterexample :
    (fun k => if k = "a)b" then some "v" else none : StrMap) "a)b" = some "v" ∧
      Expand ("$(" ++ "a)b" ++ ")")
        (MappingFuncFor (fun k => if k = "a)b" then some "v" else none)) = "$(a)b)" ∧
      Expand ("$(" ++ "a)b" ++ ")")
        (MappingFuncFor (fun k => if k = "a)b" then some "v" else none)) ≠ "v" := by
  decide

/-- C5, as amended: for every mapping `m` and every name `n` that is absent
from `m` and holds no `)`, expanding `$(n)` with the mapping function built
from `m` returns `$(n)` unchanged; and expansion yields a text on every input. -/
theorem C5_undefined_reference (m : StrMap) (n : String) (hv : m n = none)
    (hn : ')' ∉ n.data) :
    Expand ("$(" ++ n ++ ")") (MappingFuncFor m) = "$(" ++ n ++ ")" ∧
      ∀ (input : String) (mapping : String → String), ∃ out, Expand input mapping = out := by
  refine ⟨?_, fun input mapping => ⟨_, rfl⟩⟩
  rw [Expand_reference _ _ hn]
  simp [MappingFuncFor, hv]

/-- C5, worked example: `$(X)` with the empty mapping. -/
theorem C5_undefined_reference_witness :
    emptyEnv "X" = none ∧ ')' ∉ "X".data ∧
      Expand ("$(" ++ "X" ++ ")") (MappingFuncFor emptyEnv) = "$(" ++ "X" ++ ")" :=
  ⟨rfl, by decide, (C5_undefined_reference emptyEnv "X" rfl (by decide)).1⟩

/-- C5 as stated fails for a name that holds `)`: with `a` bound to `X` and
`a)b` unbound, the text `$(a)b)` becomes `Xb)`. -/
theorem C5_counterexample :
    (fun k => if k = "a" then some "X" else none : StrMap) "a)b" = none ∧
      Expand ("$(" ++ "a)b" ++ ")")
        (MappingFuncFor (fun k => if k = "a" then some "X" else none)) = "Xb)" ∧
      Expand ("$(" ++ "a)b" ++ ")")
        (MappingFuncFor (fun k => if k = "a" then some "X" else none)) ≠ "$(" ++ "a)b" ++ ")" := by
  decide

/-- C7: `runCmd` called with the empty text makes no executor call and
returns success, whatever the cluster, the workload name and the executor. So
a command whose expansion with the mapping of its workload is empty is passed
over: each of the three loops of `getGuestCmd` goes on with the next command
as if the command were not in its list; a run of `getGuestCmd` is the same
with and without such a command in the entrypoint or cmd list of a workload;
and when such a command stands in the override list, the run of `getGuestCmd`
is: the entrypoint loop of workload 0, the override loop over the list without
that command, then the later workloads (so it is the run of the loop body with
the shorter override list, when that list is not empty). -/
theorem C7_empty_command_skip (I : Imports) (d : Default) (envs : StrMap) (cluster : Cluster)
    (i : MountImage) (cmd : String) (hempty : I.Expand cmd (effectiveMapping I envs i) = "") :
    (∀ (c : Cluster) (name : String) (tr : List SshCall),
        runCmd I d c name (I.Expand cmd (effectiveMapping I envs i)) tr = (tr, none)) ∧
      (∀ (errorf : String → String → String) (before after : List String) (tr : List SshCall),
        rangeCmds I d cluster i.Name (effectiveMapping I envs i) errorf
            (before ++ cmd :: after) tr =
          rangeCmds I d cluster i.Name (effectiveMapping I envs i) errorf
            (before ++ after) tr) ∧
      (∀ (ms1 ms2 : List MountImage) (before after : List String) (tr : List SshCall),
        getGuestCmd I d envs cluster
            (ms1 ++ { i with Entrypoint := before ++ cmd :: after } :: ms2) tr =
          getGuestCmd I d envs cluster
            (ms1 ++ { i with Entrypoint := before ++ after } :: ms2) tr) ∧
      (∀ (ms1 ms2 : List MountImage) (before after : List String) (tr : List SshCall),
        getGuestCmd I d envs cluster
            (ms1 ++ { i with Cmd := before ++ cmd :: after } :: ms2) tr =
          getGuestCmd I d envs cluster
            (ms1 ++ { i with Cmd := before ++ after } :: ms2) tr) ∧
      (∀ (rest : List MountImage) (before after : List String) (tr : List SshCall),
        cluster.Spec.Command = before ++ cmd :: after →
          getGuestCmd I d envs cluster (i :: rest) tr =
            match rangeCmds I d cluster i.Name (effectiveMapping I envs i) entrypointErrorf
                i.Entrypoint tr with
            | (t1, some e) => (t1, some e)
            | (t1, none) =>
              match rangeCmds I d cluster i.Name (effectiveMapping I envs i) overrideErrorf
                  (before ++ after) t1 with
              | (t2, some e) => (t2, some e)
              | (t2, none) => rangeMounts I d envs cluster cluster.Spec.Command 1 rest t2) ∧
      (∀ (rest : List MountImage) (before after : List String) (tr : List SshCall),
        cluster.Spec.Command = before ++ cmd :: after → before ++ after ≠ [] →
          getGuestCmd I d envs cluster (i :: rest) tr =
            rangeMounts I d envs cluster (before ++ after) 0 (i :: rest) tr) := by
  have hover : ∀ (rest : List MountImage) (before after : List String) (tr : List SshCall),
      cluster.Spec.Command = before ++ cmd :: after →
        getGuestCmd I d envs cluster (i :: rest) tr =
          match rangeCmds I d cluster i.Name (effectiveMapping I envs i) entrypointErrorf
              i.Entrypoint tr with
          | (t1, some e) => (t1, some e)
          | (t1, none) =>
            match rangeCmds I d cluster i.Name (effectiveMapping I envs i) overrideErrorf
                (before ++ after) t1 with
            | (t2, some e) => (t2, some e)
            | (t2, none) => rangeMounts I d envs cluster cluster.Spec.Command 1 rest t2 := by
    intro rest before after tr hov
    have hne : cluster.Spec.Command ≠ [] := by rw [hov]; simp
    rw [getGuestCmd, getGuestCmd_override_unfold I d envs cluster _ i rest tr hne]
    have hskip := rangeCmds_skip_empty I d cluster i.Name (effectiveMapping I envs i)
      overrideErrorf cmd hempty before after
    rw [← hov] at hskip
    simp only [hskip]
  refine ⟨?_, ?_, ?_, ?_, hover, ?_⟩
  · intro c name tr
    simp [runCmd, hempty]
  · intro errorf before after tr
    exact rangeCmds_skip_empty I d cluster i.Name _ errorf cmd hempty before after tr
  · intro ms1 ms2 before after tr
    apply getGuestCmd_congr
    intro k
    have h := stepsOf_skip_empty I cluster i.Name (effectiveMapping I envs i)
      Phase.entrypoint cmd hempty before after
    simp only [workloadSteps, effectiveMapping] at h ⊢
    rw [h]
  · intro ms1 ms2 before after tr
    apply getGuestCmd_congr
    intro k
    have h := stepsOf_skip_empty I cluster i.Name (effectiveMapping I envs i)
      Phase.cmd cmd hempty before after
    simp only [workloadSteps, effectiveMapping] at h ⊢
    rw [h]
  · intro rest before after tr hov hne
    rw [hover rest before after tr hov,
      getGuestCmd_override_unfold I d envs cluster _ i rest tr hne]
    rcases rangeCmds I d cluster i.Name (effectiveMapping I envs i) entrypointErrorf
      i.Entrypoint tr with ⟨t1, _ | e⟩
    · simp only
      rcases rangeCmds I d cluster i.Name (effectiveMapping I envs i) overrideErrorf
        (before ++ after) t1 with ⟨t2, _ | e⟩
      · exact rangeMounts_succ_override I d envs cluster _ _ 0 rest t2
      · rfl
    · rfl

/-- C7, worked example: the workload `gap` has the entrypoint
`[e1, $(NOTHING), e2]` and binds `NOTHING` to the empty text, and the override
list is `[o1, $(NOTHING)]`; the run dispatches `e1`, `e2` and `o1` for `gap`,
nothing for the two empty expansions, and goes on with workload `B`. -/
theorem C7_empty_command_skip_witness :
    Expand "$(NOTHING)" (effectiveMapping (sampleImports Precedence.clusterEnv) emptyEnv
        workloadGap) = "" ∧
      gapCluster.Spec.Command = ["o1"] ++ "$(NOTHING)" :: [] ∧
      getGuestCmd (sampleImports Precedence.clusterEnv) { ssh := okSsh } emptyEnv gapCluster
          [workloadGap, workloadB] [] =
        ([{ host := "10.0.0.1:22", cmd := "cd c/gap && e1" },
          { host := "10.0.0.1:22", cmd := "cd c/gap && e2" },
          { host := "10.0.0.1:22", cmd := "cd c/gap && o1" },
          { host := "10.0.0.1:22", cmd := "cd c/B && e1" },
          { host := "10.0.0.1:22", cmd := "cd c/B && e2" },
          { host := "10.0.0.1:22", cmd := "cd c/B && c1" }], none) :=
  ⟨by decide, rfl,
    ((C7_empty_command_skip (sampleImports Precedence.clusterEnv) { ssh := okSsh } emptyEnv
      gapCluster workloadGap "$(NOTHING)" (by decide)).2.2.2.2.2 [workloadB] ["o1"] [] []
      rfl (by decide)).trans (by decide)⟩

/-- C10: for every cluster, `Delete` panics with the value `implement me`: it
returns neither `nil` nor an error, and it leaves the trace of executor calls
as it was. -/
theorem C10_delete_panics (d : Default) (cluster : Cluster) (tr : List SshCall) :
    Delete d cluster tr = (tr, Outcome.panicked "implement me") ∧
      ∀ err : Option String, (Delete d cluster tr).2 ≠ Outcome.returned err := by
  refine ⟨rfl, fun err h => ?_⟩
  simp [Delete] at h

end Guest
